import Mathlib

/-!
# Shallow embedding of the rate limiter in `src/lib/rateLimit.ts`

Times are epoch milliseconds, modelled as `Int`.  JavaScript numeric
quirks that the source can actually hit are modelled explicitly:

* an optional number (`blockUntil?: number`) is `Option Int`, where
  `none` stands for both `undefined` and `NaN` (the code produces `NaN`
  only as `undefined + windowMs`, i.e. `Option.map` over `none`);
* JS truthiness of a number (`log.blockUntil && ...`) is false exactly
  for `undefined`, `NaN` and `0`;
* JS `x || d` on strings treats the empty string as falsy.

The process-global mutable `Map` store is modelled by explicit state
passing: each operation takes the store and returns the new store.
-/

/-- `RateLimitConfig` from `src/lib/rateLimit.ts` (lines 12-16). -/
structure RateLimitConfig where
  maxRequests : Int
  windowMs : Int
  message : Option String := none
deriving DecidableEq, Repr

/-- `RateLimitResult` from `src/lib/rateLimit.ts` (lines 18-23).
`resetAt` is declared `number` in TS but receives `NaN` when a deny is
issued with an empty timestamp list (possible only for
`maxRequests <= 0`); `none` models that `NaN`. -/
structure RateLimitResult where
  allowed : Bool
  remaining : Int
  resetAt : Option Int
  message : Option String := none
deriving DecidableEq, Repr

/-- `RequestLog` from `src/lib/rateLimit.ts` (lines 25-29). -/
structure RequestLog where
  timestamps : List Int
  blocked : Bool
  blockUntil : Option Int := none
deriving DecidableEq, Repr

/-- The `RateLimitStore` class (lines 35-112): its one piece of data is
the `Map<string, RequestLog>`, modelled as an association list in `Map`
insertion order with unique keys. -/
structure RateLimitStore where
  store : List (String × RequestLog)
deriving DecidableEq, Repr

/-- Lookup in an association list, first match wins (JS `Map.get`). -/
def mapGet : List (String × RequestLog) → String → Option RequestLog
  | [], _ => none
  | (k, v) :: rest, key => if k = key then some v else mapGet rest key

/-- Update in an association list: replace in place if the key is
present, otherwise append (JS `Map.set` insertion-order semantics). -/
def mapSet : List (String × RequestLog) → String → RequestLog → List (String × RequestLog)
  | [], key, log => [(key, log)]
  | (k, v) :: rest, key, log =>
    if k = key then (key, log) :: rest else (k, v) :: mapSet rest key log

/-- `store.get` (source lines 78-80). -/
def RateLimitStore.get (s : RateLimitStore) (key : String) : Option RequestLog :=
  mapGet s.store key

/-- `store.set` (source lines 85-87). -/
def RateLimitStore.set (s : RateLimitStore) (key : String) (log : RequestLog) :
    RateLimitStore :=
  ⟨mapSet s.store key log⟩

/-- `store.size` (source lines 99-101). -/
def RateLimitStore.size (s : RateLimitStore) : Nat := s.store.length

/-- JS truthiness of an optional number: `undefined`, `NaN` (both
`none`) and `0` are falsy. -/
def jsTruthyNum : Option Int → Bool
  | none => false
  | some b => b != 0

/-- JS `x || d` for an optional string: `undefined` and `""` fall back
to the default. -/
def jsOrStr : Option String → String → String
  | none, d => d
  | some s, d => if s = "" then d else s

/-- JS `x || d` for an optional number: `undefined` and `0` fall back
to the default (used for `recentRequests[0] || now`, line 295). -/
def jsOrNum : Option Int → Int → Int
  | none, d => d
  | some x, d => if x = 0 then d else x

/-- The guard `log.blocked && log.blockUntil && log.blockUntil > now`
(source lines 167 and 340; same expression at line 65 in `cleanup`). -/
def blockActive (log : RequestLog) (now : Int) : Bool :=
  log.blocked &&
    match log.blockUntil with
    | none => false
    | some b => b != 0 && decide (now < b)

/-- Default denial message literal (source lines 172 and 193). -/
def defaultDenyMessage : String := "Rate limit exceeded. Please try again later."

/-- `checkRateLimit` (source lines 150-214), with the `Date.now()` call
made an explicit `now` argument and the global store threaded through. -/
def checkRateLimit (s : RateLimitStore) (identifier : String)
    (config : RateLimitConfig) (now : Int) : RateLimitResult × RateLimitStore :=
  let maxRequests := config.maxRequests
  let windowMs := config.windowMs
  let message := config.message
  -- Get or create request log (lines 158-164)
  let log := (s.get identifier).getD { timestamps := [], blocked := false, blockUntil := none }
  -- Check if currently blocked (lines 167-174); no store mutation on this path
  if blockActive log now then
    ({ allowed := false, remaining := 0, resetAt := log.blockUntil,
       message := some (jsOrStr message defaultDenyMessage) }, s)
  else
    -- Remove timestamps outside the window (line 177)
    let timestamps := log.timestamps.filter fun t => now - t < windowMs
    if (timestamps.length : Int) ≥ maxRequests then
      -- Block for the remaining window time (lines 180-195);
      -- `timestamps[0]` is `undefined` on an empty list and
      -- `undefined + windowMs` is `NaN`, hence the `Option.map`.
      let blockUntil := timestamps.head?.map (· + windowMs)
      let log' : RequestLog :=
        { timestamps := timestamps, blocked := true, blockUntil := blockUntil }
      ({ allowed := false, remaining := 0, resetAt := blockUntil,
         message := some (jsOrStr message defaultDenyMessage) },
       s.set identifier log')
    else
      -- Admit: append `now`, clear `blocked` (lines 198-213).
      -- `log.blockUntil` is left as it was (the source never clears it).
      let timestamps' := timestamps ++ [now]
      let log' : RequestLog :=
        { timestamps := timestamps', blocked := false, blockUntil := log.blockUntil }
      ({ allowed := true, remaining := maxRequests - (timestamps'.length : Int),
         resetAt := timestamps'.head?.map (· + windowMs), message := none },
       s.set identifier log')

/-- Run a sequence of `checkRateLimit` calls for one identifier under
one policy, at the given call times, collecting the results. -/
def runCalls (s : RateLimitStore) (identifier : String) (config : RateLimitConfig) :
    List Int → List RateLimitResult × RateLimitStore
  | [] => ([], s)
  | t :: ts =>
    let step := checkRateLimit s identifier config t
    let rest := runCalls step.2 identifier config ts
    (step.1 :: rest.1, rest.2)

/-- `checkMultipleRateLimits` (source lines 224-241): evaluate the
configs in order, returning the first failed check; if they all pass,
return Allowed with the `-1` sentinel and `resetAt = Date.now()`. -/
def checkMultipleRateLimits (s : RateLimitStore) (identifier : String)
    (configs : List RateLimitConfig) (now : Int) : RateLimitResult × RateLimitStore :=
  match configs with
  | [] =>
    ({ allowed := true, remaining := -1, resetAt := some now, message := none }, s)
  | config :: rest =>
    let step := checkRateLimit s identifier config now
    if step.1.allowed then checkMultipleRateLimits step.2 identifier rest now
    else step

/-- Run `checkRateLimit` once per config in order (all at time `now`),
collecting every individual result; reference point for the
short-circuit behaviour of `checkMultipleRateLimits`. -/
def runConfigs (s : RateLimitStore) (identifier : String) :
    List RateLimitConfig → Int → List RateLimitResult × RateLimitStore
  | [], _ => ([], s)
  | config :: rest, now =>
    let step := checkRateLimit s identifier config now
    let tail := runConfigs step.2 identifier rest now
    (step.1 :: tail.1, tail.2)

/-- The retention test of one `cleanup` loop iteration (source lines
62-69): keep an entry iff it has a timestamp newer than one hour ago or
is actively blocked. -/
def cleanupKeep (log : RequestLog) (now : Int) : Bool :=
  let oneHourAgo := now - 60 * 60 * 1000
  let hasRecentRequests := log.timestamps.any fun t => decide (oneHourAgo < t)
  let isBlocked := blockActive log now
  hasRecentRequests || isBlocked

/-- `RateLimitStore.cleanup` (source lines 58-73), with `Date.now()`
made an explicit argument. -/
def RateLimitStore.cleanup (s : RateLimitStore) (now : Int) : RateLimitStore :=
  ⟨s.store.filter fun e => cleanupKeep e.2 now⟩

/-- Result type of `getRateLimitStatus` (source line 276). -/
structure RateLimitStatus where
  current : Int
  max : Int
  remaining : Int
  resetAt : Int
deriving DecidableEq, Repr

/-- `getRateLimitStatus` (source lines 273-304).  The source reads the
store and builds a fresh filtered array without writing anything back;
the returned store transcribes that (the second component is the store
as the function leaves it). -/
def getRateLimitStatus (s : RateLimitStore) (identifier : String)
    (config : RateLimitConfig) (now : Int) : RateLimitStatus × RateLimitStore :=
  let maxRequests := config.maxRequests
  let windowMs := config.windowMs
  match s.get identifier with
  | none =>
    ({ current := 0, max := maxRequests, remaining := maxRequests,
       resetAt := now + windowMs }, s)
  | some log =>
    let recentRequests := log.timestamps.filter fun t => now - t < windowMs
    let remaining := max 0 (maxRequests - (recentRequests.length : Int))
    -- `recentRequests[0] || now` (line 295): `undefined` and `0` both
    -- fall back to `now`.
    let oldestTimestamp := jsOrNum recentRequests.head? now
    ({ current := (recentRequests.length : Int), max := maxRequests,
       remaining := remaining, resetAt := oldestTimestamp + windowMs }, s)

/-- `resetRateLimit` (source lines 259-264). -/
def resetRateLimit (s : RateLimitStore) (identifier : String) : RateLimitStore :=
  s.set identifier { timestamps := [], blocked := false, blockUntil := none }

/-- `Function.length` of the `RateLimitStore.get` method: the method
declares one parameter (`key`), so `store.get.length` is `1`. -/
def storeGetLength : Nat := 1

/-- `store.get.toString()`: the source text of the `get` method as
rendered by `Function.prototype.toString` (source lines 78-80). -/
def storeGetSource : String :=
  "get(key) \x7b\n    return this.store.get(key);\n  \x7d"

/-- A value as seen by the `for...of` loop in `getRateLimitStats`:
either a JS string (what iterating a string yields — one-character
strings) or a `RequestLog` object. -/
inductive JsVal where
  | str : String → JsVal
  | obj : RequestLog → JsVal
deriving DecidableEq, Repr

/-- The body of the `getRateLimitStats` loop (source lines 338-343):
increment iff `log && typeof log === 'object' && 'blocked' in log` and
the log is actively blocked.  For a one-character string, the truthiness
test passes but `typeof log === 'object'` is `false` (`typeof` of a
string is `"string"`), so the guard fails. -/
def statsIncrement (now : Int) : JsVal → Bool
  | .str _ => false
  | .obj log => blockActive log now

/-- `getRateLimitStats` (source lines 330-350), returning
`(totalKeys, blockedCount)`.  The loop source is
`for (const log of store.get.length ? Array.from(store.get.toString()) : [])`:
`store.get.length` is the method's arity (1, truthy), and
`Array.from` on the method's source string yields its characters as
one-character strings — the store's entries are never iterated. -/
def getRateLimitStats (s : RateLimitStore) (now : Int) : Int × Int :=
  let iterated : List JsVal :=
    if storeGetLength != 0 then
      storeGetSource.toList.map fun c => JsVal.str (String.singleton c)
    else []
  let blockedCount := (iterated.filter (statsIncrement now)).length
  ((s.size : Int), (blockedCount : Int))

/-- The empty store (state at process start). -/
def emptyStore : RateLimitStore := ⟨[]⟩

/-! ## Basic store lemmas -/

theorem mapGet_mapSet_self (l : List (String × RequestLog)) (key : String)
    (log : RequestLog) : mapGet (mapSet l key log) key = some log := by
  induction l with
  | nil => simp [mapSet, mapGet]
  | cons e rest ih =>
    obtain ⟨k, v⟩ := e
    by_cases hk : k = key
    · simp [mapSet, hk, mapGet]
    · simp [mapSet, hk, mapGet, ih]

theorem get_set_self (s : RateLimitStore) (key : String) (log : RequestLog) :
    (s.set key log).get key = some log :=
  mapGet_mapSet_self s.store key log

/-! ## Claim theorems -/

/-- Claim C10: for every store state and time, `getRateLimitStats`
reports `blockedCount = 0` — its loop iterates over the characters of
the `get` accessor's source text, none of which passes the
`typeof log === 'object'` guard — while `totalKeys` is the store's
actual size. -/
theorem getRateLimitStats_blockedCount_zero (s : RateLimitStore) (now : Int) :
    getRateLimitStats s now = ((s.size : Int), 0) := by
  have hfilter :
      ((storeGetSource.toList.map fun c => JsVal.str (String.singleton c)).filter
        (statsIncrement now)) = [] := by
    refine List.filter_eq_nil_iff.mpr ?_
    intro v hv
    rcases List.mem_map.mp hv with ⟨c, _, rfl⟩
    exact (by decide : ¬ (false : Bool) = true)
  simp [getRateLimitStats, storeGetLength, hfilter]
  intro a ha
  rfl

/-- Claim C2 (counterexample): in the concrete scenario with policy
`{maxRequests: 2, windowMs: 5000}`, the call at `t = 5001` is Allowed
but with `remaining = 0`, not `remaining = 1` as claimed — at `t = 5001`
the `t = 100` timestamp is still inside the window, and the admitted
request itself is appended before `remaining` is computed, so the log
again holds 2 in-window timestamps. -/
theorem scenario_counterexample :
    (((runCalls emptyStore "203.0.113.7" ⟨2, 5000, none⟩ [0, 100, 200, 5001]).1.map
        fun r => (r.allowed, r.remaining))[3]? = some (true, 0)) ∧
    (((runCalls emptyStore "203.0.113.7" ⟨2, 5000, none⟩ [0, 100, 200, 5001]).1.map
        fun r => (r.allowed, r.remaining))[3]? ≠ some (true, 1)) := by
  decide

/-- Claim C2 (amended): with policy `{maxRequests: 2, windowMs: 5000}`
and a fresh identifier, `checkRateLimit` returns: at `t=0` Allowed with
`remaining = 1`; at `t=100` Allowed with `remaining = 0`; at `t=200`
Denied with `resetAt = 5000`; and at `t=5001` Allowed with
`remaining = 0`. -/
theorem scenario_amended :
    ((runCalls emptyStore "203.0.113.7" ⟨2, 5000, none⟩ [0, 100, 200, 5001]).1.map
        fun r => (r.allowed, r.remaining, r.resetAt)) =
      [(true, 1, some 5000), (true, 0, some 5000),
       (false, 0, some 5000), (true, 0, some 5100)] := by
  decide

/-- Claim C5 (counterexample): with the invalid policy
`{maxRequests: 0, windowMs: 5000}`, the first use does not fail with a
configuration error — it computes and returns an admission decision
(Denied, `remaining = 0`, with a `NaN` `resetAt` from
`undefined + windowMs`) and latches the fresh identifier. -/
theorem config_validation_counterexample :
    (checkRateLimit emptyStore "ip" ⟨0, 5000, none⟩ 0).1 =
      { allowed := false, remaining := 0, resetAt := none,
        message := some defaultDenyMessage } ∧
    (checkRateLimit emptyStore "ip" ⟨0, 5000, none⟩ 0).2.get "ip" =
      some { timestamps := [], blocked := true, blockUntil := none } := by
  decide

/-- Claim C5 (amended): `checkRateLimit` performs no policy validation
and raises no configuration error; at first use on a fresh identifier it
computes an admission decision from the invalid values — Denied with
`remaining = 0` and a `NaN` (`none`) `resetAt` when
`maxRequests <= 0`, and Allowed when `maxRequests >= 1` even when
`windowMs` is non-positive. -/
theorem checkRateLimit_no_config_validation (s : RateLimitStore)
    (identifier : String) (config : RateLimitConfig) (now : Int)
    (hfresh : s.get identifier = none) :
    (config.maxRequests ≤ 0 →
      (checkRateLimit s identifier config now).1.allowed = false ∧
      (checkRateLimit s identifier config now).1.remaining = 0 ∧
      (checkRateLimit s identifier config now).1.resetAt = none) ∧
    (1 ≤ config.maxRequests →
      (checkRateLimit s identifier config now).1.allowed = true) := by
  constructor
  · intro hmax
    simp [checkRateLimit, hfresh, blockActive]
    rw [if_pos hmax]
    exact ⟨rfl, rfl, rfl⟩
  · intro hmax
    simp [checkRateLimit, hfresh, blockActive]
    rw [if_neg (by omega)]

/-- Witness for `checkRateLimit_no_config_validation` at the concrete
policies `{maxRequests: 0, windowMs: 5000}` and
`{maxRequests: 1, windowMs: 0}` on the empty store. -/
theorem checkRateLimit_no_config_validation_witness :
    ((checkRateLimit emptyStore "ip" ⟨0, 5000, none⟩ 3).1.allowed = false ∧
      (checkRateLimit emptyStore "ip" ⟨0, 5000, none⟩ 3).1.remaining = 0 ∧
      (checkRateLimit emptyStore "ip" ⟨0, 5000, none⟩ 3).1.resetAt = none) ∧
    (checkRateLimit emptyStore "ip" ⟨1, 0, none⟩ 3).1.allowed = true :=
  ⟨(checkRateLimit_no_config_validation emptyStore "ip" ⟨0, 5000, none⟩ 3 rfl).1
      (by decide),
   (checkRateLimit_no_config_validation emptyStore "ip" ⟨1, 0, none⟩ 3 rfl).2
      (by decide)⟩

/-- Claim C9: `getRateLimitStatus` never mutates the store; its result
has `current` equal to the number of stored timestamps inside the
window, `remaining = max 0 (maxRequests - current)`, and for an
identifier with no stored log it reports a clean slate
(`current = 0`, `remaining = maxRequests`, `resetAt = now + windowMs`). -/
theorem getRateLimitStatus_spec (s : RateLimitStore) (identifier : String)
    (config : RateLimitConfig) (now : Int) :
    (getRateLimitStatus s identifier config now).2 = s ∧
    (∀ log, s.get identifier = some log →
      (getRateLimitStatus s identifier config now).1.current =
        ((log.timestamps.filter fun t => now - t < config.windowMs).length : Int) ∧
      (getRateLimitStatus s identifier config now).1.remaining =
        max 0 (config.maxRequests -
          (getRateLimitStatus s identifier config now).1.current)) ∧
    (s.get identifier = none →
      (getRateLimitStatus s identifier config now).1 =
        { current := 0, max := config.maxRequests, remaining := config.maxRequests,
          resetAt := now + config.windowMs }) := by
  refine ⟨?_, ?_, ?_⟩
  · unfold getRateLimitStatus
    cases s.get identifier <;> simp
  · intro log hlog
    simp [getRateLimitStatus, hlog]
  · intro hnone
    simp [getRateLimitStatus, hnone]

/-- Witness for `getRateLimitStatus_spec` on a concrete store holding
one log with timestamps `[0, 6]` at `now = 10`, window `1000`, and on
the empty store. -/
theorem getRateLimitStatus_spec_witness :
    (getRateLimitStatus ⟨[("ip", ⟨[0, 6], false, none⟩)]⟩ "ip" ⟨5, 1000, none⟩ 10).2 =
      ⟨[("ip", ⟨[0, 6], false, none⟩)]⟩ ∧
    (getRateLimitStatus ⟨[("ip", ⟨[0, 6], false, none⟩)]⟩ "ip" ⟨5, 1000, none⟩ 10).1.current =
      ((([0, 6] : List Int).filter fun t => 10 - t < (1000 : Int)).length : Int) ∧
    (getRateLimitStatus emptyStore "ip" ⟨5, 1000, none⟩ 10).1 =
      { current := 0, max := 5, remaining := 5, resetAt := 1010 } :=
  ⟨(getRateLimitStatus_spec ⟨[("ip", ⟨[0, 6], false, none⟩)]⟩ "ip" ⟨5, 1000, none⟩ 10).1,
   ((getRateLimitStatus_spec ⟨[("ip", ⟨[0, 6], false, none⟩)]⟩ "ip" ⟨5, 1000, none⟩ 10).2.1
      ⟨[0, 6], false, none⟩ (by decide)).1,
   (getRateLimitStatus_spec emptyStore "ip" ⟨5, 1000, none⟩ 10).2.2 (by decide)⟩

/-- One blocked-branch evaluation: when the stored log is blocked with a
nonzero `blockUntil` still in the future, `checkRateLimit` answers
Denied from the latch and leaves the store untouched. -/
theorem checkRateLimit_blocked_step (s : RateLimitStore) (identifier : String)
    (config : RateLimitConfig) (log : RequestLog) (b now : Int)
    (hget : s.get identifier = some log) (hblocked : log.blocked = true)
    (hbu : log.blockUntil = some b) (hbpos : 0 < b) (hnow : now < b) :
    checkRateLimit s identifier config now =
      ({ allowed := false, remaining := 0, resetAt := some b,
         message := some (jsOrStr config.message defaultDenyMessage) }, s) := by
  have hb0 : b != 0 := by simp; omega
  have hactive : blockActive log now = true := by
    simp [blockActive, hblocked, hbu, hb0, hnow]
  simp [checkRateLimit, hget, hactive, hbu]

/-- Claim C3: once an identifier is latched (`blocked = true` with a
positive `blockUntil = b`), every sequence of `checkRateLimit` calls at
times strictly before `b` returns only Denied results with
`remaining = 0` and `resetAt` equal to the original `b` (not
recomputed), and the store — in particular the stored timestamps list —
is left exactly as it was. -/
theorem checkRateLimit_blocked_latch (s : RateLimitStore) (identifier : String)
    (config : RateLimitConfig) (log : RequestLog) (b : Int) (times : List Int)
    (hget : s.get identifier = some log) (hblocked : log.blocked = true)
    (hbu : log.blockUntil = some b) (hbpos : 0 < b)
    (htimes : ∀ t ∈ times, t < b) :
    runCalls s identifier config times =
      (times.map fun _ =>
        ({ allowed := false, remaining := 0, resetAt := some b,
           message := some (jsOrStr config.message defaultDenyMessage) } :
          RateLimitResult), s) := by
  induction times with
  | nil => rfl
  | cons t ts ih =>
    have hstep := checkRateLimit_blocked_step s identifier config log b t
      hget hblocked hbu hbpos (htimes t (by simp))
    have hrest := ih fun t' ht' => htimes t' (by simp [ht'])
    simp [runCalls, hstep, hrest]

/-- Witness for `checkRateLimit_blocked_latch`: a store latched with
`blockUntil = 5000` answers calls at `t = 10, 20, 4999` with three
stable denials and is unchanged. -/
theorem checkRateLimit_blocked_latch_witness :
    runCalls ⟨[("ip", ⟨[0, 1], true, some 5000⟩)]⟩ "ip" ⟨2, 5000, none⟩ [10, 20, 4999] =
      ([({ allowed := false, remaining := 0, resetAt := some 5000,
            message := some defaultDenyMessage } : RateLimitResult),
        { allowed := false, remaining := 0, resetAt := some 5000,
          message := some defaultDenyMessage },
        { allowed := false, remaining := 0, resetAt := some 5000,
          message := some defaultDenyMessage }],
       ⟨[("ip", ⟨[0, 1], true, some 5000⟩)]⟩) := by
  have h := checkRateLimit_blocked_latch ⟨[("ip", ⟨[0, 1], true, some 5000⟩)]⟩ "ip"
    ⟨2, 5000, none⟩ ⟨[0, 1], true, some 5000⟩ 5000 [10, 20, 4999]
    (by decide) rfl rfl (by decide) (by decide)
  simpa using h

/-- Claim C4: for an identifier latched with `blocked = true`,
`timestamps` holding exactly `maxRequests` entries headed by the oldest
counted request `h`, and `blockUntil = h + windowMs`, a call under the
same policy strictly after `blockUntil` is Allowed (the aged-out head
drops the in-window count below `maxRequests`) and stores the log with
`blocked` reset to `false`. -/
theorem checkRateLimit_post_block_recovery (s : RateLimitStore)
    (identifier : String) (config : RateLimitConfig) (log : RequestLog)
    (h : Int) (rest : List Int) (now : Int)
    (hget : s.get identifier = some log)
    (hts : log.timestamps = h :: rest)
    (hlen : ((log.timestamps.length : Nat) : Int) = config.maxRequests)
    (hblocked : log.blocked = true)
    (hbu : log.blockUntil = some (h + config.windowMs))
    (hnow : h + config.windowMs < now) :
    (checkRateLimit s identifier config now).1.allowed = true ∧
    ∃ log', (checkRateLimit s identifier config now).2.get identifier = some log' ∧
      log'.blocked = false := by
  have hactive : blockActive log now = false := by
    simp [blockActive, hbu]
    intro _ _
    omega
  have hhead : ¬ (now - h < config.windowMs) := by omega
  have hcount :
      ¬ (((log.timestamps.filter fun t => now - t < config.windowMs).length : Int) ≥
          config.maxRequests) := by
    rw [hts]
    have hle : ((h :: rest).filter fun t => now - t < config.windowMs).length ≤
        rest.length := by
      rw [List.filter_cons_of_neg (by simpa using hhead)]
      exact List.length_filter_le _ rest
    rw [hts] at hlen
    simp only [List.length_cons] at hlen
    push_neg
    calc (((h :: rest).filter fun t => now - t < config.windowMs).length : Int)
        ≤ (rest.length : Int) := by exact_mod_cast hle
      _ < config.maxRequests := by omega
  refine ⟨?_, ?_⟩
  · simp [checkRateLimit, hget, hactive, hcount]
  · have h2 : (checkRateLimit s identifier config now).2 =
        s.set identifier
          { timestamps :=
              (log.timestamps.filter fun t => now - t < config.windowMs) ++ [now],
            blocked := false, blockUntil := log.blockUntil } := by
      simp [checkRateLimit, hget, hactive, hcount]
    exact ⟨_, h2 ▸ get_set_self _ _ _, rfl⟩

/-- Witness for `checkRateLimit_post_block_recovery`: a log latched at
capacity 2 with timestamps `[0, 100]` and `blockUntil = 5000` admits the
call at `t = 5001` and stores `blocked = false`. -/
theorem checkRateLimit_post_block_recovery_witness :
    (checkRateLimit ⟨[("ip", ⟨[0, 100], true, some 5000⟩)]⟩ "ip" ⟨2, 5000, none⟩
        5001).1.allowed = true ∧
    ∃ log', (checkRateLimit ⟨[("ip", ⟨[0, 100], true, some 5000⟩)]⟩ "ip" ⟨2, 5000, none⟩
        5001).2.get "ip" = some log' ∧ log'.blocked = false :=
  checkRateLimit_post_block_recovery ⟨[("ip", ⟨[0, 100], true, some 5000⟩)]⟩ "ip"
    ⟨2, 5000, none⟩ ⟨[0, 100], true, some 5000⟩ 0 [100] 5001
    (by decide) rfl (by decide) rfl rfl (by decide)
/-- Number of Allowed results in a list of decisions. -/
def countAllowed (results : List RateLimitResult) : Nat :=
  (results.filter fun r => r.allowed).length

/-- Length of the timestamp log held for an identifier (`0` when the
store has no entry). -/
def logLen : Option RequestLog → Int
  | none => 0
  | some log => log.timestamps.length

theorem countAllowed_cons_of_pos (r : RateLimitResult) (l : List RateLimitResult)
    (h : r.allowed = true) : countAllowed (r :: l) = countAllowed l + 1 := by
  simp [countAllowed, List.filter_cons, h]

theorem countAllowed_cons_of_neg (r : RateLimitResult) (l : List RateLimitResult)
    (h : r.allowed = false) : countAllowed (r :: l) = countAllowed l := by
  simp [countAllowed, List.filter_cons, h]

/-- Quota bookkeeping for a run whose calls all fall inside one window
anchored at `t0`: the Allowed results plus the timestamps already held
never exceed `maxRequests`. -/
theorem runCalls_quota (config : RateLimitConfig) (identifier : String) (t0 : Int)
    (hmax0 : 0 ≤ config.maxRequests) :
    ∀ (times : List Int) (s : RateLimitStore),
      (∀ t ∈ times, t0 ≤ t ∧ t - t0 < config.windowMs) →
      (∀ log, s.get identifier = some log →
        (∀ t ∈ log.timestamps, t0 ≤ t ∧ t - t0 < config.windowMs) ∧
        (log.timestamps.length : Int) ≤ config.maxRequests) →
      (countAllowed (runCalls s identifier config times).1 : Int) +
        logLen (s.get identifier) ≤ config.maxRequests := by
  intro times
  induction times with
  | nil =>
    intro s _ hinv
    cases hs : s.get identifier with
    | none => simpa [runCalls, countAllowed, logLen] using hmax0
    | some log => simpa [runCalls, countAllowed, logLen] using (hinv log hs).2
  | cons t ts ih =>
    intro s htimes hinv
    set L : RequestLog := (s.get identifier).getD ⟨[], false, none⟩ with hL
    have hLwin : ∀ t' ∈ L.timestamps, t0 ≤ t' ∧ t' - t0 < config.windowMs := by
      cases hs : s.get identifier with
      | none => simp [hL, hs]
      | some log => simpa [hL, hs] using (hinv log hs).1
    have hLlen : (L.timestamps.length : Int) ≤ config.maxRequests := by
      cases hs : s.get identifier with
      | none => simpa [hL, hs] using hmax0
      | some log => simpa [hL, hs] using (hinv log hs).2
    have hlogLen : logLen (s.get identifier) = (L.timestamps.length : Int) := by
      cases hs : s.get identifier with
      | none => simp [logLen, hL, hs]
      | some log => simp [logLen, hL, hs]
    have ht0 := htimes t (by simp)
    have hfilter : (L.timestamps.filter fun t' => t - t' < config.windowMs) =
        L.timestamps := by
      refine List.filter_eq_self.mpr ?_
      intro a ha
      have := hLwin a ha
      simp only [decide_eq_true_eq]
      omega
    have htail : ∀ t' ∈ ts, t0 ≤ t' ∧ t' - t0 < config.windowMs :=
      fun t' ht' => htimes t' (by simp [ht'])
    by_cases hactive : blockActive L t = true
    · -- blocked branch: denied, store untouched
      have heq : checkRateLimit s identifier config t =
          ({ allowed := false, remaining := 0, resetAt := L.blockUntil,
             message := some (jsOrStr config.message defaultDenyMessage) }, s) := by
        simp [checkRateLimit, ← hL, hactive]
      have hrest := ih s htail hinv
      simp only [runCalls, heq]
      rw [countAllowed_cons_of_neg _ _ rfl]
      exact hrest
    · replace hactive : blockActive L t = false := by
        simpa using hactive
      by_cases hge : ((L.timestamps.length : Nat) : Int) ≥ config.maxRequests
      · -- deny-and-latch branch: count unchanged, log length unchanged
        have heq : checkRateLimit s identifier config t =
            ({ allowed := false, remaining := 0,
               resetAt := L.timestamps.head?.map (· + config.windowMs),
               message := some (jsOrStr config.message defaultDenyMessage) },
             s.set identifier
               ⟨L.timestamps, true, L.timestamps.head?.map (· + config.windowMs)⟩) := by
          simp [checkRateLimit, ← hL, hactive, hfilter, hge]
        have hinv' : ∀ log, (s.set identifier
              ⟨L.timestamps, true, L.timestamps.head?.map (· + config.windowMs)⟩).get
                identifier = some log →
            (∀ t' ∈ log.timestamps, t0 ≤ t' ∧ t' - t0 < config.windowMs) ∧
            (log.timestamps.length : Int) ≤ config.maxRequests := by
          intro log hlog
          rw [get_set_self] at hlog
          cases hlog
          exact ⟨hLwin, hLlen⟩
        have hrest := ih _ htail hinv'
        rw [get_set_self] at hrest
        simp only [runCalls, heq]
        rw [countAllowed_cons_of_neg _ _ rfl]
        simp only [logLen] at hrest
        omega
      · -- admit branch: count and log length both grow by one
        have heq : checkRateLimit s identifier config t =
            ({ allowed := true,
               remaining := config.maxRequests -
                 ((L.timestamps ++ [t]).length : Int),
               resetAt := (L.timestamps ++ [t]).head?.map (· + config.windowMs),
               message := none },
             s.set identifier ⟨L.timestamps ++ [t], false, L.blockUntil⟩) := by
          simp [checkRateLimit, ← hL, hactive, hfilter, hge]
        have hinv' : ∀ log, (s.set identifier
              ⟨L.timestamps ++ [t], false, L.blockUntil⟩).get identifier = some log →
            (∀ t' ∈ log.timestamps, t0 ≤ t' ∧ t' - t0 < config.windowMs) ∧
            (log.timestamps.length : Int) ≤ config.maxRequests := by
          intro log hlog
          rw [get_set_self] at hlog
          cases hlog
          constructor
          · intro t' ht'
            rcases List.mem_append.mp ht' with h' | h'
            · exact hLwin t' h'
            · simp at h'
              subst h'
              exact ht0
          · simp only [List.length_append, List.length_singleton]
            push_cast
            omega
        have hrest := ih _ htail hinv'
        rw [get_set_self] at hrest
        simp only [runCalls, heq]
        rw [countAllowed_cons_of_pos _ _ rfl]
        simp only [logLen, List.length_append, List.length_singleton] at hrest
        push_cast at hrest ⊢
        omega

/-- Claim C1: for every policy with `maxRequests >= 1` and
`windowMs >= 1`, in any sequence of `checkRateLimit` calls for one
identifier starting from an empty store whose call times all lie within
one window of the anchor `t0` (so no timestamp ages out), at most
`maxRequests` results are Allowed. -/
theorem checkRateLimit_quota_invariant (config : RateLimitConfig)
    (identifier : String) (t0 : Int) (times : List Int)
    (hmax : 1 ≤ config.maxRequests) (hwin : 1 ≤ config.windowMs)
    (htimes : ∀ t ∈ times, t0 ≤ t ∧ t - t0 < config.windowMs) :
    (countAllowed (runCalls emptyStore identifier config times).1 : Int) ≤
      config.maxRequests := by
  have h := runCalls_quota config identifier t0 (by omega) times emptyStore htimes
    (by intro log hlog; simp [emptyStore, RateLimitStore.get, mapGet] at hlog)
  simpa [emptyStore, RateLimitStore.get, mapGet, logLen] using h

/-- Witness for `checkRateLimit_quota_invariant`: three calls at
`t = 0, 1, 2` under `{maxRequests: 2, windowMs: 5000}` produce at most
2 Allowed results. -/
theorem checkRateLimit_quota_invariant_witness :
    (countAllowed (runCalls emptyStore "ip" ⟨2, 5000, none⟩ [0, 1, 2]).1 : Int) ≤ 2 :=
  checkRateLimit_quota_invariant ⟨2, 5000, none⟩ "ip" 0 [0, 1, 2]
    (by decide) (by decide) (by decide)

/-- Per-log well-formedness after a call at time `now`: every retained
timestamp is inside the window and not in the future, the log is
non-decreasing, and a latched log's `blockUntil` is the window end of
its oldest retained timestamp. -/
def logInv (config : RateLimitConfig) (log : RequestLog) (now : Int) : Prop :=
  (∀ t ∈ log.timestamps, now - t < config.windowMs ∧ t ≤ now) ∧
  log.timestamps.Pairwise (· ≤ ·) ∧
  (log.blocked = true → ∃ h rest, log.timestamps = h :: rest ∧
      log.blockUntil = some (h + config.windowMs))

/-- `logInv` for the identifier's entry, when one exists. -/
def storeInv (config : RateLimitConfig) (identifier : String)
    (s : RateLimitStore) (now : Int) : Prop :=
  ∀ log, s.get identifier = some log → logInv config log now

/-- One `checkRateLimit` call at a later time preserves `storeInv`. -/
theorem checkRateLimit_preserves_inv (config : RateLimitConfig)
    (identifier : String) (hmax : 1 ≤ config.maxRequests)
    (hwin : 1 ≤ config.windowMs) (s : RateLimitStore) (now now' : Int)
    (hle : now ≤ now') (hinv : storeInv config identifier s now) :
    storeInv config identifier (checkRateLimit s identifier config now').2 now' := by
  set L : RequestLog := (s.get identifier).getD ⟨[], false, none⟩ with hL
  have hLinv : logInv config L now := by
    cases hs : s.get identifier with
    | none =>
      refine ⟨by simp [hL, hs], by simp [hL, hs], ?_⟩
      simp [hL, hs]
    | some log => simpa [hL, hs] using hinv log hs
  obtain ⟨hLwin, hLpair, hLblocked⟩ := hLinv
  by_cases hactive : blockActive L now' = true
  · -- blocked branch: the store is untouched; the latch structure plus
    -- `now' < blockUntil = oldest + windowMs` keeps every timestamp in
    -- the window at the later time.
    have heq : (checkRateLimit s identifier config now').2 = s := by
      simp [checkRateLimit, ← hL, hactive]
    rw [heq]
    intro log hlog
    have hLlog : L = log := by simp [hL, hlog]
    subst hLlog
    have hblocked : L.blocked = true := by
      by_contra hb
      have hb' : L.blocked = false := by
        cases hbv : L.blocked
        · rfl
        · exact absurd hbv hb
      rw [blockActive, hb'] at hactive
      simp at hactive
    obtain ⟨h, rest, hts, hbu⟩ := hLblocked hblocked
    have hlt : now' < h + config.windowMs := by
      rw [blockActive, hbu, hblocked] at hactive
      simp at hactive
      exact hactive.2
    have hhead : ∀ t ∈ L.timestamps, h ≤ t := by
      rw [hts]
      intro t ht
      rcases List.mem_cons.mp ht with rfl | ht'
      · exact le_refl t
      · exact (List.pairwise_cons.mp (hts ▸ hLpair)).1 t ht'
    refine ⟨?_, hLpair, fun _ => ⟨h, rest, hts, hbu⟩⟩
    intro t ht
    have := hLwin t ht
    have := hhead t ht
    constructor
    · omega
    · omega
  · replace hactive : blockActive L now' = false := by simpa using hactive
    have hPwin : ∀ t ∈ L.timestamps.filter fun t => now' - t < config.windowMs,
        now' - t < config.windowMs ∧ t ≤ now' := by
      intro t ht
      rcases List.mem_filter.mp ht with ⟨htm, hp⟩
      have := (hLwin t htm).2
      constructor
      · simpa using hp
      · omega
    have hPpair : (L.timestamps.filter fun t => now' - t < config.windowMs).Pairwise
        (· ≤ ·) := hLpair.sublist (List.filter_sublist _)
    by_cases hge : (((L.timestamps.filter fun t => now' - t < config.windowMs).length :
        Nat) : Int) ≥ config.maxRequests
    · -- deny-and-latch branch
      have heq : (checkRateLimit s identifier config now').2 =
          s.set identifier
            ⟨L.timestamps.filter fun t => now' - t < config.windowMs, true,
             (L.timestamps.filter fun t => now' - t < config.windowMs).head?.map
               (· + config.windowMs)⟩ := by
        simp [checkRateLimit, ← hL, hactive, hge]
      rw [heq]
      intro log hlog
      rw [get_set_self] at hlog
      cases hlog
      have hne : (L.timestamps.filter fun t => now' - t < config.windowMs) ≠ [] := by
        intro hnil
        rw [hnil] at hge
        simp at hge
        omega
      obtain ⟨h, rest, hts⟩ := List.exists_cons_of_ne_nil hne
      refine ⟨hPwin, hPpair, fun _ => ⟨h, rest, hts, ?_⟩⟩
      simp [hts]
    · -- admit branch
      have heq : (checkRateLimit s identifier config now').2 =
          s.set identifier
            ⟨(L.timestamps.filter fun t => now' - t < config.windowMs) ++ [now'],
             false, L.blockUntil⟩ := by
        simp [checkRateLimit, ← hL, hactive, hge]
      rw [heq]
      intro log hlog
      rw [get_set_self] at hlog
      cases hlog
      refine ⟨?_, ?_, by simp⟩
      · intro t ht
        rcases List.mem_append.mp ht with h' | h'
        · exact hPwin t h'
        · simp at h'
          subst h'
          constructor
          · omega
          · exact le_refl t
      · rw [List.pairwise_append]
        refine ⟨hPpair, List.pairwise_singleton _ _, ?_⟩
        intro a ha b hb
        simp at hb
        subst hb
        exact (hPwin a ha).2

/-- A non-decreasing run of calls ending at `now` preserves `storeInv`
down to `now`. -/
theorem runCalls_preserves_inv (config : RateLimitConfig) (identifier : String)
    (hmax : 1 ≤ config.maxRequests) (hwin : 1 ≤ config.windowMs) :
    ∀ (times : List Int) (now : Int) (s : RateLimitStore) (now0 : Int),
      storeInv config identifier s now0 →
      List.Chain' (· ≤ ·) (now0 :: (times ++ [now])) →
      storeInv config identifier
        (runCalls s identifier config (times ++ [now])).2 now := by
  intro times
  induction times with
  | nil =>
    intro now s now0 hinv hchain
    have hle : now0 ≤ now := (List.chain'_cons.mp hchain).1
    have h := checkRateLimit_preserves_inv config identifier hmax hwin s now0 now
      hle hinv
    simpa [runCalls] using h
  | cons t ts ih =>
    intro now s now0 hinv hchain
    rw [List.cons_append, List.chain'_cons] at hchain
    have hstep := checkRateLimit_preserves_inv config identifier hmax hwin s now0 t
      hchain.1 hinv
    have h := ih now (checkRateLimit s identifier config t).2 t hstep hchain.2
    simpa [runCalls] using h

/-- Claim C7: starting from the empty store, after every
`checkRateLimit` call for one identifier under one policy
(`maxRequests >= 1`, `windowMs >= 1`) at non-decreasing call times —
the latest call at time `now`, including calls answered from the
blocked branch, which performs no purge — every timestamp retained for
the identifier satisfies `now - timestamp < windowMs`.  (`times` ranges
over all earlier calls, so instantiating this at every prefix of a run
covers every call of the run.) -/
theorem checkRateLimit_window_invariant (config : RateLimitConfig)
    (identifier : String) (times : List Int) (now : Int)
    (hmax : 1 ≤ config.maxRequests) (hwin : 1 ≤ config.windowMs)
    (hchain : List.Chain' (· ≤ ·) (times ++ [now])) :
    ∀ log, (runCalls emptyStore identifier config (times ++ [now])).2.get
        identifier = some log →
      ∀ t ∈ log.timestamps, now - t < config.windowMs := by
  have hinv0 : storeInv config identifier emptyStore ((times ++ [now]).headD now) := by
    intro log hlog
    simp [emptyStore, RateLimitStore.get, mapGet] at hlog
  have hchain0 : List.Chain' (· ≤ ·)
      (((times ++ [now]).headD now) :: (times ++ [now])) := by
    cases h : times ++ [now] with
    | nil => simp at h
    | cons a l =>
      rw [List.headD_cons, List.chain'_cons]
      exact ⟨le_refl a, h ▸ hchain⟩
  have h := runCalls_preserves_inv config identifier hmax hwin times now emptyStore
    _ hinv0 hchain0
  intro log hlog t ht
  exact ((h log hlog).1 t ht).1

/-- Witness for `checkRateLimit_window_invariant`: after calls at
`t = 0, 100, 200` and finally `now = 5001` under
`{maxRequests: 2, windowMs: 5000}`, the retained log is
`[100, 5001]` and both timestamps are in the window at `5001`. -/
theorem checkRateLimit_window_invariant_witness :
    (5001 : Int) - 100 < 5000 ∧ (5001 : Int) - 5001 < 5000 :=
  ⟨checkRateLimit_window_invariant ⟨2, 5000, none⟩ "ip" [0, 100, 200] 5001
      (by decide) (by decide) (by norm_num [List.chain'_cons, List.chain'_singleton])
      ⟨[100, 5001], false, some 5000⟩ (by decide) 100 (by decide),
   checkRateLimit_window_invariant ⟨2, 5000, none⟩ "ip" [0, 100, 200] 5001
      (by decide) (by decide) (by norm_num [List.chain'_cons, List.chain'_singleton])
      ⟨[100, 5001], false, some 5000⟩ (by decide) 5001 (by decide)⟩

/-- Every Denied `checkRateLimit` result carries `remaining = 0`. -/
theorem checkRateLimit_denied_remaining (s : RateLimitStore) (identifier : String)
    (config : RateLimitConfig) (now : Int)
    (hdeny : (checkRateLimit s identifier config now).1.allowed = false) :
    (checkRateLimit s identifier config now).1.remaining = 0 := by
  set L : RequestLog := (s.get identifier).getD ⟨[], false, none⟩ with hL
  by_cases hactive : blockActive L now = true
  · simp [checkRateLimit, ← hL, hactive]
  · replace hactive : blockActive L now = false := by simpa using hactive
    by_cases hge : (((L.timestamps.filter fun t => now - t < config.windowMs).length :
        Nat) : Int) ≥ config.maxRequests
    · simp [checkRateLimit, ← hL, hactive, hge]
    · exfalso
      have : (checkRateLimit s identifier config now).1.allowed = true := by
        simp [checkRateLimit, ← hL, hactive, hge]
      rw [hdeny] at this
      cases this

/-- Prefixes of allowed checks can be peeled off
`checkMultipleRateLimits`, leaving the store they produced. -/
theorem checkMultipleRateLimits_append (identifier : String) (now : Int) :
    ∀ (pre rest : List RateLimitConfig) (s : RateLimitStore),
      (∀ r ∈ (runConfigs s identifier pre now).1, r.allowed = true) →
      checkMultipleRateLimits s identifier (pre ++ rest) now =
        checkMultipleRateLimits (runConfigs s identifier pre now).2 identifier
          rest now := by
  intro pre
  induction pre with
  | nil => intro rest s _; simp [runConfigs]
  | cons c cs ih =>
    intro rest s hall
    have hc : (checkRateLimit s identifier c now).1.allowed = true := by
      apply hall
      simp [runConfigs]
    simp only [List.cons_append, checkMultipleRateLimits, runConfigs]
    rw [if_pos hc]
    exact ih rest _ fun r hr => hall r (by simp [runConfigs, hr])

/-- When every check in the list allows, `checkMultipleRateLimits`
returns the `-1` sentinel with `resetAt = now` and the store after all
the checks. -/
theorem checkMultipleRateLimits_all_allowed (identifier : String) (now : Int) :
    ∀ (configs : List RateLimitConfig) (s : RateLimitStore),
      (∀ r ∈ (runConfigs s identifier configs now).1, r.allowed = true) →
      checkMultipleRateLimits s identifier configs now =
        ({ allowed := true, remaining := -1, resetAt := some now, message := none },
         (runConfigs s identifier configs now).2) := by
  intro configs
  induction configs with
  | nil => intro s _; simp [checkMultipleRateLimits, runConfigs]
  | cons c cs ih =>
    intro s hall
    have hc : (checkRateLimit s identifier c now).1.allowed = true := by
      apply hall
      simp [runConfigs]
    simp only [checkMultipleRateLimits, runConfigs]
    rw [if_pos hc]
    exact ih _ fun r hr => hall r (by simp [runConfigs, hr])

/-- Claim C6: `checkMultipleRateLimits` evaluates the configs in order
and returns the first Denied result (which has `remaining = 0`), its
store being the one produced by the checks up to and including the
denying config — later configs are not evaluated and the timestamps
recorded by the earlier allowing configs are not undone; when every
config allows it returns Allowed with the `remaining = -1` sentinel and
`resetAt` equal to the current time. -/
theorem checkMultipleRateLimits_spec (s : RateLimitStore) (identifier : String)
    (configs : List RateLimitConfig) (now : Int) :
    (∀ pre c post, configs = pre ++ c :: post →
      (∀ r ∈ (runConfigs s identifier pre now).1, r.allowed = true) →
      (checkRateLimit (runConfigs s identifier pre now).2 identifier c
          now).1.allowed = false →
      checkMultipleRateLimits s identifier configs now =
        checkRateLimit (runConfigs s identifier pre now).2 identifier c now ∧
      (checkMultipleRateLimits s identifier configs now).1.remaining = 0) ∧
    ((∀ r ∈ (runConfigs s identifier configs now).1, r.allowed = true) →
      checkMultipleRateLimits s identifier configs now =
        ({ allowed := true, remaining := -1, resetAt := some now, message := none },
         (runConfigs s identifier configs now).2)) := by
  constructor
  · intro pre c post hsplit hpre hdeny
    subst hsplit
    have h1 := checkMultipleRateLimits_append identifier now pre (c :: post) s hpre
    have h2 : checkMultipleRateLimits (runConfigs s identifier pre now).2 identifier
        (c :: post) now =
        checkRateLimit (runConfigs s identifier pre now).2 identifier c now := by
      simp only [checkMultipleRateLimits]
      rw [if_neg (by simp [hdeny])]
    refine ⟨h1.trans h2, ?_⟩
    rw [h1.trans h2]
    exact checkRateLimit_denied_remaining _ _ _ _ hdeny
  · exact checkMultipleRateLimits_all_allowed identifier now configs s

/-- Witness for `checkMultipleRateLimits_spec`: with one prior
timestamp, the lenient config `{maxRequests: 100}` allows (and records
the request) while the strict `{maxRequests: 1}` config then denies, so
the pair short-circuits to the strict denial with `remaining = 0`;
and on the empty store both configs allow, giving the `-1` sentinel. -/
theorem checkMultipleRateLimits_spec_witness :
    (checkMultipleRateLimits ⟨[("ip", ⟨[0], false, none⟩)]⟩ "ip"
        [⟨100, 1000, none⟩, ⟨1, 1000, some "strict"⟩] 10 =
      checkRateLimit
        (runConfigs ⟨[("ip", ⟨[0], false, none⟩)]⟩ "ip" [⟨100, 1000, none⟩] 10).2
        "ip" ⟨1, 1000, some "strict"⟩ 10 ∧
      (checkMultipleRateLimits ⟨[("ip", ⟨[0], false, none⟩)]⟩ "ip"
        [⟨100, 1000, none⟩, ⟨1, 1000, some "strict"⟩] 10).1.remaining = 0) ∧
    checkMultipleRateLimits emptyStore "ip"
        [⟨100, 1000, none⟩, ⟨50, 1000, none⟩] 10 =
      ({ allowed := true, remaining := -1, resetAt := some 10, message := none },
       (runConfigs emptyStore "ip" [⟨100, 1000, none⟩, ⟨50, 1000, none⟩] 10).2) :=
  ⟨(checkMultipleRateLimits_spec ⟨[("ip", ⟨[0], false, none⟩)]⟩ "ip"
      [⟨100, 1000, none⟩, ⟨1, 1000, some "strict"⟩] 10).1
      [⟨100, 1000, none⟩] ⟨1, 1000, some "strict"⟩ [] rfl
      (by decide) (by decide),
   (checkMultipleRateLimits_spec emptyStore "ip"
      [⟨100, 1000, none⟩, ⟨50, 1000, none⟩] 10).2 (by decide)⟩

/-- Keys absent from an association list look up to `none`. -/
theorem mapGet_eq_none_of_not_mem (l : List (String × RequestLog)) (key : String)
    (h : key ∉ l.map Prod.fst) : mapGet l key = none := by
  induction l with
  | nil => rfl
  | cons e rest ih =>
    simp only [List.map_cons, List.mem_cons, not_or] at h
    rw [mapGet, if_neg fun he => h.1 he.symm]
    exact ih h.2

/-- Filtering an association list with unique keys by a predicate on
the values: the looked-up entry survives exactly when the predicate
holds on it. -/
theorem mapGet_filter (p : RequestLog → Bool) (key : String) :
    ∀ (l : List (String × RequestLog)), (l.map Prod.fst).Nodup →
      ∀ log, mapGet l key = some log →
      mapGet (l.filter fun e => p e.2) key =
        if p log then some log else none := by
  intro l
  induction l with
  | nil => intro _ log h; cases h
  | cons e rest ih =>
    intro hnd log hget
    obtain ⟨k, v⟩ := e
    simp only [List.map_cons, List.nodup_cons] at hnd
    by_cases hk : k = key
    · subst hk
      rw [mapGet, if_pos rfl] at hget
      cases hget
      by_cases hp : p log = true
      · rw [List.filter_cons_of_pos (by simpa using hp), mapGet, if_pos rfl, if_pos hp]
      · have hp' : p log = false := by simpa using hp
        rw [List.filter_cons_of_neg (by simp [hp']), if_neg (by simp [hp'])]
        refine mapGet_eq_none_of_not_mem _ _ fun hmem => hnd.1 ?_
        exact ((List.filter_sublist rest).map Prod.fst).mem hmem
    · rw [mapGet, if_neg hk] at hget
      have hres := ih hnd.2 log hget
      by_cases hp : p v = true
      · rw [List.filter_cons_of_pos (by simpa using hp), mapGet, if_neg hk]
        exact hres
      · have hp' : p v = false := by simpa using hp
        rw [List.filter_cons_of_neg (by simp [hp'])]
        exact hres

/-- Claim C8: an entry present in the store before one cleanup sweep at
time `now` is removed if and only if it has no timestamp newer than one
hour before `now` and is not actively blocked (`blocked` with a truthy
`blockUntil > now`, the code's `blockActive` test); in particular an
actively blocked identifier survives cleanup, and a surviving entry is
unchanged. -/
theorem cleanup_removes_iff (s : RateLimitStore) (now : Int) (key : String)
    (log : RequestLog) (hnd : (s.store.map Prod.fst).Nodup)
    (hget : s.get key = some log) :
    ((s.cleanup now).get key = none ↔
      (∀ t ∈ log.timestamps, t ≤ now - 60 * 60 * 1000) ∧
        blockActive log now = false) ∧
    (blockActive log now = true → (s.cleanup now).get key = some log) := by
  have h := mapGet_filter (fun lg => cleanupKeep lg now) key s.store hnd log hget
  have hcleanup : (s.cleanup now).get key =
      if cleanupKeep log now then some log else none := h
  have hkeep : cleanupKeep log now = false ↔
      (∀ t ∈ log.timestamps, t ≤ now - 60 * 60 * 1000) ∧
        blockActive log now = false := by
    rw [cleanupKeep]
    simp only [Bool.or_eq_false_iff, List.any_eq_false, decide_eq_true_eq]
    constructor
    · rintro ⟨h1, h2⟩
      exact ⟨fun t ht => by have := h1 t ht; omega, h2⟩
    · rintro ⟨h1, h2⟩
      exact ⟨fun t ht => by have := h1 t ht; omega, h2⟩
  constructor
  · rw [hcleanup]
    constructor
    · intro hnone
      by_cases hk : cleanupKeep log now = true
      · rw [if_pos hk] at hnone
        cases hnone
      · exact hkeep.mp (by simpa using hk)
    · intro hcond
      rw [if_neg (by simp [hkeep.mpr hcond])]
  · intro hb
    rw [hcleanup, if_pos (by simp [cleanupKeep, hb])]

/-- Witness for `cleanup_removes_iff`: at `now = 4000000000`, an idle
unblocked entry is removed while an idle entry blocked until
`5000000000` survives unchanged. -/
theorem cleanup_removes_iff_witness :
    ((⟨[("idle", ⟨[0], false, none⟩), ("blkd", ⟨[0], true, some 5000000000⟩)]⟩ :
        RateLimitStore).cleanup 4000000000).get "idle" = none ∧
    ((⟨[("idle", ⟨[0], false, none⟩), ("blkd", ⟨[0], true, some 5000000000⟩)]⟩ :
        RateLimitStore).cleanup 4000000000).get "blkd" =
      some ⟨[0], true, some 5000000000⟩ :=
  ⟨(cleanup_removes_iff ⟨[("idle", ⟨[0], false, none⟩),
        ("blkd", ⟨[0], true, some 5000000000⟩)]⟩ 4000000000 "idle"
        ⟨[0], false, none⟩ (by decide) (by decide)).1.mpr
      ⟨by decide, by decide⟩,
   (cleanup_removes_iff ⟨[("idle", ⟨[0], false, none⟩),
        ("blkd", ⟨[0], true, some 5000000000⟩)]⟩ 4000000000 "blkd"
        ⟨[0], true, some 5000000000⟩ (by decide) (by decide)).2 (by decide)⟩
